import Mathlib

/-!
Verification development for the REVA paper abstract extraction pipeline
(`src/extract_abstracts.py`).

The pipeline is a single Python file.  We shallowly embed its pure logic:

* `clean_text` (lines 40-54): the Text Normalizer, a pure string function
  built from three `re.sub` passes and a `strip()`.
* `extract_from_scopus` (lines 56-94) and `extract_from_doi` (lines 96-112):
  the Field Extractor and the Fallback Metadata Client.  The HTTP fetch and
  the HTML/JSON parse are external effects; we model the fetched document as
  an explicit value (`HtmlDoc` for the Scopus page, the already-defaulted
  `message.abstract` string for the CrossRef response) and a fetch/parse
  failure as the `Except.error` side, which the Python `try/except` catches.
* `process_paper` (lines 114-143): the per-record two-tier policy.
* `main`'s checkpoint merge, resume index, iteration loop, checkpoint writes
  and final statistics (lines 145-228): embedded as list-valued state with
  an explicit fold over the iterated index range.

Python-semantics notes used throughout (each is standard CPython/pandas
behaviour and is recorded where it matters):
* `if not s:` on a string is an emptiness test; on `None` it is also true.
  `truthyStr` models truthiness of an optional string.
* `re` character class `\s` is modelled by its ASCII part
  (space, tab, newline, carriage return, vertical tab, form feed); all
  concrete inputs appearing in the claims are ASCII.
* `pd.read_csv` turns an empty CSV cell into NaN, and a left merge leaves
  NaN where no checkpoint row matched; we model a cell as `Option String`
  with `none` for NaN.  `notna()` counts `isSome` cells.
  `astype(bool)` applies Python `bool(...)` element-wise, and
  `bool(float('nan'))` is `True`, so a NaN cell counts as truthy there.
-/

/-- ASCII part of the Python regex class `\s` (and of `str.strip`'s
default whitespace set). -/
def pyIsSpace (c : Char) : Bool :=
  c = ' ' || c = '\t' || c = '\n' || c = '\r' || c = '\x0B' || c = '\x0C'

/-- The allow-set of `re.sub(r'[^a-zA-Z0-9\s.,;:()\-]', '', text)`
(source line 50): ASCII letters, digits, whitespace and `.,;:()-`. -/
def isAllowedChar (c : Char) : Bool :=
  ('a' ≤ c && c ≤ 'z') || ('A' ≤ c && c ≤ 'Z') || ('0' ≤ c && c ≤ '9') ||
  pyIsSpace c ||
  c = '.' || c = ',' || c = ';' || c = ':' || c = '(' || c = ')' || c = '-'

/-- Scanner for `re.sub(r'<[^>]+>', '', text)` (source line 46).
`none` mode is plain scanning; `some buf` means we have read a `<` and the
(reversed) characters `buf` after it, looking for the closing `>`.
A `<>` with nothing inside is not a match (the `+` needs at least one
character), and an unclosed `<...` at end of input is emitted verbatim,
exactly as the leftmost-match/continue-after-match regex scan does. -/
def stripTagsAux : List Char → Option (List Char) → List Char
  | [], none => []
  | [], some buf => '<' :: buf.reverse
  | c :: rest, none =>
    if c = '<' then stripTagsAux rest (some [])
    else c :: stripTagsAux rest none
  | c :: rest, some buf =>
    if c = '>' then
      if buf.isEmpty then '<' :: '>' :: stripTagsAux rest none
      else stripTagsAux rest none
    else stripTagsAux rest (some (c :: buf))

/-- `re.sub(r'<[^>]+>', '', text)` on a character list. -/
def removeTags (l : List Char) : List Char := stripTagsAux l none

/-- `re.sub(r'\s+', ' ', text)` (source line 48) as a one-pass scan.
`prev` records whether the previous character of the input was whitespace
(so the single replacement space was already emitted). -/
def collapseWs : List Char → Bool → List Char
  | [], _ => []
  | c :: rest, prev =>
    if pyIsSpace c then
      if prev then collapseWs rest true else ' ' :: collapseWs rest true
    else c :: collapseWs rest false

/-- `text.strip()` (source line 52): drop whitespace at both ends. -/
def stripEnds (l : List Char) : List Char :=
  ((l.dropWhile pyIsSpace).reverse.dropWhile pyIsSpace).reverse

/-- `PaperExtractor.clean_text` (source lines 40-54): the Text Normalizer.
Empty input returns `""` via the `if not text:` guard; otherwise the three
regex passes run in source order (tags, whitespace, allow-set) and the
result is stripped. -/
def clean_text (text : String) : String :=
  if text = "" then ""
  else
    String.mk (stripEnds (List.filter isAllowedChar
      (collapseWs (removeTags text.data) false)))

/-- `clean_text` as called with a possibly absent argument: Python's
`if not text:` guard also returns `""` for `None`. -/
def clean_text_opt (text : Option String) : String :=
  match text with
  | none => ""
  | some s => clean_text s

example : clean_text "<b>A  b</b>!!" = "A b" := by decide
example : clean_text "a ! b" = "a  b" := by decide
example : clean_text (clean_text "a ! b") = "a b" := by decide
example : clean_text "" = "" := by decide
example : clean_text "  x<i>y</i> z. " = "xy z." := by decide

/-- Python truthiness of an optional string (`if abstract:` on a value that
is `None` or a `str`): `None` and `""` are falsy, everything else truthy. -/
def truthyStr : Option String → Bool
  | none => false
  | some s => !(s == "")

/-- The parts of a fetched, parsed Scopus HTML page that
`extract_from_scopus` (source lines 62-90) inspects, as found by the four
BeautifulSoup lookups:
* `abstractSectionDivText`: `soup.find('section', {'id': 'abstractSection'})`
  — `none` when the section is absent; when present, the inner
  `find('div', class_='abstract')`, carrying that div's raw `get_text()`.
* `abstractDivText`: `soup.find('div', {'class': 'abstract'})` raw text.
* `metaDescriptionContent`: `soup.find('meta', {'name': 'description'})`
  — when the tag exists, its `content` attribute, itself optional because
  the code reads it with `meta.get('content', '')`.
* `keywordSpanText`: `soup.find('span', {'class': 'keyword'})` raw text. -/
structure HtmlDoc where
  abstractSectionDivText : Option (Option String)
  abstractDivText : Option String
  metaDescriptionContent : Option (Option String)
  keywordSpanText : Option String
deriving DecidableEq

/-- A Scopus page with none of the four lookups succeeding. -/
def emptyHtmlDoc : HtmlDoc := ⟨none, none, none, none⟩

/-- `PaperExtractor.extract_from_scopus` (source lines 56-94).
The argument is the outcome of the fetch-and-parse prefix (lines 59-62):
`Except.error` stands for any exception there — network error, timeout,
or the `raise_for_status()` on a non-2xx response — and is caught by the
`except` clause (lines 92-94), which logs and returns `(None, None)`.
On a parsed document the three abstract strategies run in source order,
each guarded by Python's `if not abstract:` (truthiness), and the keyword
lookup runs independently afterwards. -/
def extract_from_scopus (fetched : Except String HtmlDoc) :
    Option String × Option String :=
  match fetched with
  | .error _ => (none, none)
  | .ok soup =>
    let abstract : Option String :=
      match soup.abstractSectionDivText with
      | some (some t) => some (clean_text t)
      | some none => none
      | none => none
    let abstract : Option String :=
      if truthyStr abstract then abstract
      else match soup.abstractDivText with
           | some t => some (clean_text t)
           | none => abstract
    let abstract : Option String :=
      if truthyStr abstract then abstract
      else match soup.metaDescriptionContent with
           | some content => some (clean_text (content.getD ""))
           | none => abstract
    let keywords : Option String := soup.keywordSpanText.map clean_text
    (abstract, keywords)

/-- Strategy (a) of `extract_from_scopus` in isolation (source lines
64-70): the normalized text of the abstract-class div nested inside the
abstract-section container, when both exist. -/
def scopusStrategyOne (d : HtmlDoc) : Option String :=
  match d.abstractSectionDivText with
  | some (some t) => some (clean_text t)
  | some none => none
  | none => none

/-- Strategy (b) of `extract_from_scopus` in isolation (source lines
72-76): the normalized text of any abstract-class div. -/
def scopusStrategyTwo (d : HtmlDoc) : Option String :=
  d.abstractDivText.map clean_text

/-- Strategy (c) of `extract_from_scopus` in isolation (source lines
78-82): the normalized `content` attribute of the description meta tag,
read with `get('content', '')`. -/
def scopusStrategyThree (d : HtmlDoc) : Option String :=
  d.metaDescriptionContent.map (fun content => clean_text (content.getD ""))

/-- `PaperExtractor.extract_from_doi` (source lines 96-112).
The argument is the outcome of the fetch-and-parse prefix (lines 99-104):
`Except.error` stands for any exception (network, timeout,
`raise_for_status()`, `response.json()` failing), caught at lines 109-110;
`Except.ok a` carries `data.get('message', {}).get('abstract', '')`, so a
missing field arrives as `.ok ""`.  Keywords are never produced here. -/
def extract_from_doi (fetched : Except String String) :
    Option String × Option String :=
  match fetched with
  | .error _ => (none, none)
  | .ok abstractField =>
    if abstractField == "" then (none, none)
    else (some (clean_text abstractField), none)

/-- One row of the input spreadsheet as `process_paper` reads it:
`row.get('Link', '')` and `row.get('DOI', '')` (source lines 116-117). -/
structure Row where
  Link : String
  DOI : String
deriving DecidableEq

/-- The dict returned by `process_paper` (source lines 119-123):
keys `Abstract`, `Keywords`, `Status`. -/
structure PaperResult where
  Abstract : String
  Keywords : String
  Status : String
deriving DecidableEq

/-- The external world the extractor talks to: for each URL the
fetch-and-parse outcome of the Scopus page, and for each DOI the outcome
of the CrossRef request (already reduced to the `message.abstract` field,
see `extract_from_doi`). -/
structure FetchEnv where
  scopusPage : String → Except String HtmlDoc
  crossrefAbstract : String → Except String String

/-- `PaperExtractor.process_paper` (source lines 114-143): try the Scopus
URL when non-empty; if that yields a truthy abstract, return
`Success - Scopus` with the keywords (`keywords or ''`); otherwise try the
DOI when non-empty; if that yields a truthy abstract, return
`Success - DOI`; otherwise the initial `Failed` result with empty fields. -/
def process_paper (env : FetchEnv) (row : Row) : PaperResult :=
  if row.Link ≠ "" ∧ truthyStr (extract_from_scopus (env.scopusPage row.Link)).1 then
    ⟨((extract_from_scopus (env.scopusPage row.Link)).1).getD "",
     ((extract_from_scopus (env.scopusPage row.Link)).2).getD "",
     "Success - Scopus"⟩
  else if row.DOI ≠ "" ∧ truthyStr (extract_from_doi (env.crossrefAbstract row.DOI)).1 then
    ⟨((extract_from_doi (env.crossrefAbstract row.DOI)).1).getD "",
     ((extract_from_doi (env.crossrefAbstract row.DOI)).2).getD "",
     "Success - DOI"⟩
  else ⟨"", "", "Failed"⟩

/-- Whether the control flow of `process_paper` reaches the call
`self.extract_from_doi(doi)` (source line 136): it does exactly when the
Scopus tier did not already return — i.e. when the link is empty or the
Scopus extraction's abstract is falsy — and the DOI is non-empty. -/
def process_paper_doi_called (env : FetchEnv) (row : Row) : Bool :=
  if row.Link ≠ "" ∧ truthyStr (extract_from_scopus (env.scopusPage row.Link)).1
  then false
  else row.DOI ≠ ""

/-- One row of the checkpoint CSV (`Link`, `Abstract`, `Keywords`,
source line 198).  A cell is `Option String`: `none` models a pandas NaN,
which is what `pd.read_csv` yields for an empty CSV cell and what a left
merge yields where no checkpoint row matched.  Because `read_csv` turns an
empty cell into NaN, a checkpoint read back from disk never contains
`some ""`; theorems state this as a hypothesis where they use it. -/
structure CkptRow where
  Link : String
  Abstract : Option String
  Keywords : Option String
deriving DecidableEq

/-- The row of the checkpoint matching a link, if any.  This models the
key lookup performed by `df.merge(checkpoint_df, on='Link', how='left')`
(source line 168); it is the merge's behaviour whenever the checkpoint's
link values are unique (the checkpoint invariant — with duplicate keys a
pandas left merge would instead duplicate rows). -/
def ckptLookup (ck : List CkptRow) (link : String) : Option CkptRow :=
  ck.find? (fun e => e.Link == link)

/-- The `Abstract` cell of a record after the left merge
(source lines 168-169): the matching checkpoint row's cell, NaN (`none`)
when unmatched. -/
def mergedAbstract (ck : List CkptRow) (r : Row) : Option String :=
  (ckptLookup ck r.Link).bind (fun e => e.Abstract)

/-- The `Keywords` cell of a record after the left merge
(source lines 168, 170). -/
def mergedKeywords (ck : List CkptRow) (r : Row) : Option String :=
  (ckptLookup ck r.Link).bind (fun e => e.Keywords)

/-- `start_index = df['Abstract'].notna().sum()` (source line 171): the
number of records whose merged `Abstract` cell is not NaN. -/
def start_index (ck : List CkptRow) (df : List Row) : Nat :=
  (df.map (mergedAbstract ck)).countP (fun a => a.isSome)

/-- The `Abstract` column entering the loop: merged cells when a
checkpoint exists (lines 166-171), all `''` otherwise (line 174). -/
def resumeAbstracts (ckpt : Option (List CkptRow)) (df : List Row) :
    List (Option String) :=
  match ckpt with
  | some ck => df.map (mergedAbstract ck)
  | none => df.map (fun _ => some "")

/-- The `Keywords` column entering the loop (lines 170, 175). -/
def resumeKeywords (ckpt : Option (List CkptRow)) (df : List Row) :
    List (Option String) :=
  match ckpt with
  | some ck => df.map (mergedKeywords ck)
  | none => df.map (fun _ => some "")

/-- The loop's start: `start_index` when a checkpoint exists, 0 otherwise
(source line 165). -/
def resumeStart (ckpt : Option (List CkptRow)) (df : List Row) : Nat :=
  match ckpt with
  | some ck => start_index ck df
  | none => 0

/-- `BATCH_SIZE = 50` (source line 153). -/
def BATCH_SIZE : Nat := 50

/-- `df[['Link', 'Abstract', 'Keywords']]` (source lines 198-199): the
checkpoint snapshot written by `to_csv`, one row per record of the whole
frame, from index 0. -/
def snapshot : List Row → List (Option String) → List (Option String) →
    List CkptRow
  | r :: rs, a :: restA, k :: restK => ⟨r.Link, a, k⟩ :: snapshot rs restA restK
  | _, _, _ => []

/-- The mutable state of `main`'s iteration loop (source lines 183-207):
the two written-back columns, the checkpoint writes performed so far
(each as the absolute `i + 1` of source line 197 together with the
snapshot written), and the indices visited by the `for` loop. -/
structure LoopState where
  abstracts : List (Option String)
  keywords : List (Option String)
  writes : List (Nat × List CkptRow)
  visited : List Nat
deriving DecidableEq

/-- One iteration of the loop body (source lines 183-207) at index `i`.
`proc i` is the outcome of `extractor.process_paper(df.iloc[i])`:
`Except.error` stands for an exception raised by that call, which the
`except` clause at lines 205-207 catches (logging and `continue`), so the
two `df.at` write-backs and the checkpoint save are skipped.  On success
the result's fields are written back and, when `(i + 1) % BATCH_SIZE == 0`,
the full-frame snapshot is written, overwriting any prior checkpoint. -/
def loopStep (df : List Row) (proc : Nat → Except String PaperResult)
    (s : LoopState) (i : Nat) : LoopState :=
  match proc i with
  | .error _ =>
    { s with visited := s.visited ++ [i] }
  | .ok result =>
    let abstracts := s.abstracts.set i (some result.Abstract)
    let keywords := s.keywords.set i (some result.Keywords)
    let writes :=
      if (i + 1) % BATCH_SIZE == 0 then
        s.writes ++ [(i + 1, snapshot df abstracts keywords)]
      else s.writes
    ⟨abstracts, keywords, writes, s.visited ++ [i]⟩

/-- `for i in tqdm(range(start_index, len(df)), ...)` (source line 183):
fold the loop body over the index range `[start, len df)`. -/
def run_loop (df : List Row) (proc : Nat → Except String PaperResult)
    (start : Nat) (abs0 kw0 : List (Option String)) : LoopState :=
  (List.range' start (df.length - start)).foldl (loopStep df proc)
    ⟨abs0, kw0, [], []⟩

/-- Python truthiness of a final `Abstract` cell under
`df['Abstract'].astype(bool)` (source line 214): a string is truthy iff
non-empty; a NaN cell (`none`) is a float and `bool(float('nan'))` is
`True`, so it is truthy. -/
def truthyCell : Option String → Bool
  | none => true
  | some s => !(s == "")

/-- `success_count = df['Abstract'].astype(bool).sum()` (source line 214). -/
def success_count (cells : List (Option String)) : Nat :=
  cells.countP truthyCell

/-- `success_rate = (success_count / len(df)) * 100` (source line 215). -/
def success_rate (cells : List (Option String)) : ℚ :=
  ((success_count cells : ℚ) / (cells.length : ℚ)) * 100

/-- The success rate as printed by `f"{success_rate:.2f}%"`
(source line 222), as an integer number of hundredths of a percent:
rounding to two decimal places. -/
def printed_rate_hundredths (cells : List (Option String)) : ℤ :=
  round (success_rate cells * 100)

example :
    run_loop [⟨"L0", ""⟩, ⟨"L1", ""⟩] (fun _ => .ok ⟨"A", "K", "Success - Scopus"⟩)
      0 [some "", some ""] [some "", some ""]
    = ⟨[some "A", some "A"], [some "K", some "K"], [], [0, 1]⟩ := by decide
example : printed_rate_hundredths [some "A", some "B", some ""] = 6667 := by
  have h : success_count [some "A", some "B", some ""] = 2 := by decide
  unfold printed_rate_hundredths success_rate
  rw [h]
  simp only [List.length]
  rw [round_eq, Int.floor_eq_iff]
  norm_num

/-- Concrete pairwise-distinct two-character link strings for test data. -/
def linkName (i : Nat) : String :=
  String.mk [Char.ofNat (65 + i / 20), Char.ofNat (65 + i % 20)]

/-- A 200-record input frame with distinct links and no DOIs. -/
def df200 : List Row := (List.range 200).map (fun i => ⟨linkName i, ""⟩)

/-- A checkpoint covering exactly the first 50 records of `df200`,
contiguously, each with a non-empty abstract. -/
def ck50 : List CkptRow :=
  (List.range 50).map (fun i => ⟨linkName i, some "done", some ""⟩)

/-- A 60-record input frame with distinct links and no DOIs. -/
def df60 : List Row := (List.range 60).map (fun i => ⟨linkName i, ""⟩)

/-- A checkpoint covering exactly the first 30 records of `df60`,
contiguously, each with a non-empty abstract. -/
def ck30 : List CkptRow :=
  (List.range 30).map (fun i => ⟨linkName i, some "done", some ""⟩)

/-- A 4-record input frame with distinct links and no DOIs. -/
def df4 : List Row :=
  [⟨"P0", ""⟩, ⟨"P1", ""⟩, ⟨"P2", ""⟩, ⟨"P3", ""⟩]

/-- A scattered checkpoint for `df4`: only records 0 and 2 have a
non-empty abstract (as left by a prior run in which record 1 failed —
its empty cell came back from CSV as NaN and was dropped). -/
def ck4 : List CkptRow :=
  [⟨"P0", some "Abs0", some ""⟩, ⟨"P2", some "Abs2", some ""⟩]

/-- A per-record oracle where every record extraction succeeds. -/
def procConst : Nat → Except String PaperResult :=
  fun _ => .ok ⟨"A", "K", "Success - Scopus"⟩

/-- A per-record oracle where every record extraction comes back
`Failed` (empty abstract, empty keywords) without raising. -/
def procFailAll : Nat → Except String PaperResult :=
  fun _ => .ok ⟨"", "", "Failed"⟩

/-- A Scopus page whose abstract-section strategy succeeds and which also
carries a keyword span. -/
def docWithAbstract : HtmlDoc :=
  ⟨some (some "An abstract."), none, none, some "kw1; kw2"⟩

/-- A Scopus page offering only a description meta tag. -/
def docMetaOnly : HtmlDoc :=
  ⟨none, none, some (some "Meta description!"), none⟩

/-- A world in which both the Scopus page fetch and the CrossRef lookup
would individually succeed with a non-empty abstract. -/
def envBoth : FetchEnv :=
  ⟨fun _ => .ok docWithAbstract, fun _ => .ok "A CrossRef abstract."⟩

/-- A record carrying both a non-empty link and a non-empty DOI. -/
def rowBoth : Row := ⟨"https://scopus.example/x", "10.1000/abc"⟩

/-- A truthy optional string yields a non-empty string under `getD ""`. -/
theorem truthyStr_getD_ne {o : Option String} (h : truthyStr o = true) :
    o.getD "" ≠ "" := by
  cases o with
  | none => simp [truthyStr] at h
  | some s =>
    simp only [truthyStr, Bool.not_eq_true', beq_eq_false_iff_ne, ne_eq] at h
    simpa using h

/-- Unfolding of `extract_from_scopus` on a successfully parsed page into
the three-strategy cascade plus the independent keyword lookup. -/
theorem extract_from_scopus_ok (d : HtmlDoc) :
    extract_from_scopus (Except.ok d) =
      (let a1 := scopusStrategyOne d
       let a2 := if truthyStr a1 then a1 else
         match d.abstractDivText with
         | some t => some (clean_text t)
         | none => a1
       let a3 := if truthyStr a2 then a2 else
         match d.metaDescriptionContent with
         | some content => some (clean_text (content.getD ""))
         | none => a2
       (a3, d.keywordSpanText.map clean_text)) := rfl

/-- C8: the Text Normalizer returns the empty string on empty or absent
input, and `clean_text "<b>A  b</b>!!" = "A b"` (tags stripped, whitespace
collapsed, disallowed characters removed, result trimmed). -/
theorem C8_normalizer_contract :
    clean_text "" = "" ∧ clean_text_opt none = "" ∧
    clean_text "<b>A  b</b>!!" = "A b" := by
  refine ⟨rfl, rfl, ?_⟩
  decide

/-- C10 counterexample: `clean_text` is not idempotent.  On "a ! b" the
whitespace pass (which runs before the allow-set pass) leaves the single
spaces around "!", and deleting "!" then yields "a  b" with a doubled
space; a second application collapses it to "a b". -/
theorem C10_counterexample :
    clean_text (clean_text "a ! b") ≠ clean_text "a ! b" := by decide

/-- C4: the Field Extractor and the Fallback Metadata Client catch every
exception of their fetch/parse prefix (network error, timeout, non-2xx
via `raise_for_status`, malformed body) and return `(absent, absent)`;
a missing `message.abstract` field (defaulted to `''`) and a page with
none of the looked-up elements likewise yield `(absent, absent)`. -/
theorem C4_extractors_never_raise (e : String) :
    extract_from_scopus (Except.error e) = (none, none) ∧
    extract_from_doi (Except.error e) = (none, none) ∧
    extract_from_doi (Except.ok "") = (none, none) ∧
    extract_from_scopus (Except.ok emptyHtmlDoc) = (none, none) :=
  ⟨rfl, rfl, rfl, rfl⟩

/-- Closed instance of `C4_extractors_never_raise` at a concrete error. -/
theorem C4_extractors_never_raise_witness :
    extract_from_scopus (Except.error "timeout") = (none, none) ∧
    extract_from_doi (Except.error "timeout") = (none, none) ∧
    extract_from_doi (Except.ok "") = (none, none) ∧
    extract_from_scopus (Except.ok emptyHtmlDoc) = (none, none) :=
  C4_extractors_never_raise "timeout"

/-- C3: whenever the record's link is non-empty and the Field Extractor
returns a (Python-truthy, i.e. non-empty) abstract for it, `process_paper`
returns the `Success - Scopus` outcome carrying that abstract and the
extracted keywords (or `''`), and `extract_from_doi` is never reached —
whatever the DOI lookup would have returned. -/
theorem C3_primary_precedence (env : FetchEnv) (row : Row) (a : String)
    (hlink : row.Link ≠ "")
    (habs : (extract_from_scopus (env.scopusPage row.Link)).1 = some a)
    (hne : a ≠ "") :
    process_paper env row =
      ⟨a, ((extract_from_scopus (env.scopusPage row.Link)).2).getD "",
        "Success - Scopus"⟩ ∧
    process_paper_doi_called env row = false := by
  have ht : truthyStr (extract_from_scopus (env.scopusPage row.Link)).1 = true := by
    rw [habs]
    simp [truthyStr, hne]
  constructor
  · unfold process_paper
    rw [if_pos ⟨hlink, ht⟩, habs]
    rfl
  · unfold process_paper_doi_called
    rw [if_pos ⟨hlink, ht⟩]

/-- Closed instance of `C3_primary_precedence`: in a world where both
tiers would succeed, the Scopus tier's result is returned and the DOI
client is not called. -/
theorem C3_primary_precedence_witness :
    process_paper envBoth rowBoth =
      ⟨"An abstract.", "kw1; kw2", "Success - Scopus"⟩ ∧
    process_paper_doi_called envBoth rowBoth = false := by
  have h := C3_primary_precedence envBoth rowBoth "An abstract."
    (by decide) (by decide) (by decide)
  refine ⟨?_, h.2⟩
  rw [h.1]
  decide

/-- C6: on a fetched page the three abstract strategies apply in strict
priority order with Python-truthiness as the success test — (a) wins when
truthy; (b) is used when (a) is falsy and (b) truthy; the meta tag (c) is
consulted only when (a) and (b) are both falsy; and the keyword lookup is
independent of the abstract cascade. -/
theorem C6_strategy_priority (d : HtmlDoc) :
    (truthyStr (scopusStrategyOne d) = true →
      (extract_from_scopus (Except.ok d)).1 = scopusStrategyOne d) ∧
    (truthyStr (scopusStrategyOne d) = false →
      truthyStr (scopusStrategyTwo d) = true →
      (extract_from_scopus (Except.ok d)).1 = scopusStrategyTwo d) ∧
    (truthyStr (scopusStrategyOne d) = false →
      truthyStr (scopusStrategyTwo d) = false →
      ∀ content, d.metaDescriptionContent = some content →
        (extract_from_scopus (Except.ok d)).1
          = some (clean_text (content.getD ""))) ∧
    (extract_from_scopus (Except.ok d)).2
      = d.keywordSpanText.map clean_text := by
  obtain ⟨sec, adiv, meta, kw⟩ := d
  refine ⟨?_, ?_, ?_, ?_⟩
  · intro h1
    simp only [scopusStrategyOne] at h1 ⊢
    simp only [extract_from_scopus, h1, if_true]
  · intro h1 h2
    simp only [scopusStrategyOne] at h1
    simp only [scopusStrategyTwo] at h2 ⊢
    rcases adiv with _ | t
    · simp [truthyStr] at h2
    · simp only [Option.map_some'] at h2 ⊢
      simp only [extract_from_scopus, h1, if_false, Bool.false_eq_true, h2, if_true]
  · intro h1 h2 content hmeta
    simp only [scopusStrategyOne] at h1
    simp only [scopusStrategyTwo] at h2
    subst hmeta
    rcases adiv with _ | t
    · simp only [extract_from_scopus, h1, Bool.false_eq_true, if_false]
    · simp only [Option.map_some'] at h2
      simp only [extract_from_scopus, h1, h2, Bool.false_eq_true, if_false]
  · simp only [extract_from_scopus]

/-- Closed instance of `C6_strategy_priority`: a page offering only the
description meta tag falls through to strategy (c). -/
theorem C6_strategy_priority_witness :
    (extract_from_scopus (Except.ok docMetaOnly)).1
      = some "Meta description" ∧
    (extract_from_scopus (Except.ok docMetaOnly)).2 = none := by
  have h := C6_strategy_priority docMetaOnly
  have h3 := h.2.2.1 (by decide) (by decide) (some "Meta description!") rfl
  constructor
  · rw [h3]
    decide
  · rw [h.2.2.2]
    rfl

/-- C7: the outcome's status is `Failed` exactly when its abstract is
empty; a record with neither link nor DOI yields the all-empty `Failed`
outcome. -/
theorem C7_failed_iff_empty_abstract (env : FetchEnv) (row : Row) :
    ((process_paper env row).Status = "Failed" ↔
      (process_paper env row).Abstract = "") ∧
    (row.Link = "" → row.DOI = "" →
      process_paper env row = ⟨"", "", "Failed"⟩) := by
  constructor
  · unfold process_paper
    by_cases h1 : row.Link ≠ "" ∧
        truthyStr (extract_from_scopus (env.scopusPage row.Link)).1 = true
    · rw [if_pos h1]
      exact iff_of_false (by simp) (truthyStr_getD_ne h1.2)
    · rw [if_neg h1]
      by_cases h2 : row.DOI ≠ "" ∧
          truthyStr (extract_from_doi (env.crossrefAbstract row.DOI)).1 = true
      · rw [if_pos h2]
        exact iff_of_false (by simp) (truthyStr_getD_ne h2.2)
      · rw [if_neg h2]
        exact iff_of_true rfl rfl
  · intro hL hD
    unfold process_paper
    rw [if_neg (fun hc => hc.1 hL), if_neg (fun hc => hc.1 hD)]

/-- Closed instance of `C7_failed_iff_empty_abstract` at a record with
neither link nor DOI, and the status-abstract equivalence at a record
that succeeds. -/
theorem C7_failed_iff_empty_abstract_witness :
    process_paper envBoth ⟨"", ""⟩ = ⟨"", "", "Failed"⟩ ∧
    ((process_paper envBoth rowBoth).Status = "Failed" ↔
      (process_paper envBoth rowBoth).Abstract = "") :=
  ⟨(C7_failed_iff_empty_abstract envBoth ⟨"", ""⟩).2 rfl rfl,
   (C7_failed_iff_empty_abstract envBoth rowBoth).1⟩

/-- Each loop iteration records its index as visited, whether the record
raised or not. -/
theorem loopStep_visited (df : List Row) (proc : Nat → Except String PaperResult)
    (s : LoopState) (i : Nat) :
    (loopStep df proc s i).visited = s.visited ++ [i] := by
  unfold loopStep
  cases proc i <;> rfl

/-- The loop visits exactly the indices it folds over, in order. -/
theorem foldl_loopStep_visited (df : List Row)
    (proc : Nat → Except String PaperResult) (is : List Nat) (s : LoopState) :
    (is.foldl (loopStep df proc) s).visited = s.visited ++ is := by
  induction is generalizing s with
  | nil => simp
  | cons i tl ih =>
    rw [List.foldl_cons, ih, loopStep_visited]
    simp

/-- A loop iteration never changes the lengths of the two columns. -/
theorem loopStep_lengths (df : List Row) (proc : Nat → Except String PaperResult)
    (s : LoopState) (i : Nat) :
    (loopStep df proc s i).abstracts.length = s.abstracts.length ∧
    (loopStep df proc s i).keywords.length = s.keywords.length := by
  unfold loopStep
  cases proc i <;> simp [List.length_set]

/-- Folding the loop never changes the lengths of the two columns. -/
theorem foldl_loopStep_lengths (df : List Row)
    (proc : Nat → Except String PaperResult) (is : List Nat) (s : LoopState) :
    (is.foldl (loopStep df proc) s).abstracts.length = s.abstracts.length ∧
    (is.foldl (loopStep df proc) s).keywords.length = s.keywords.length := by
  induction is generalizing s with
  | nil => exact ⟨rfl, rfl⟩
  | cons i tl ih =>
    rw [List.foldl_cons]
    refine ⟨?_, ?_⟩
    · rw [(ih (loopStep df proc s i)).1, (loopStep_lengths df proc s i).1]
    · rw [(ih (loopStep df proc s i)).2, (loopStep_lengths df proc s i).2]

/-- A loop iteration at index `i` leaves every other cell unchanged. -/
theorem loopStep_getElem?_ne (df : List Row)
    (proc : Nat → Except String PaperResult) (s : LoopState) (i j : Nat)
    (hne : i ≠ j) :
    (loopStep df proc s i).abstracts[j]? = s.abstracts[j]? ∧
    (loopStep df proc s i).keywords[j]? = s.keywords[j]? := by
  unfold loopStep
  cases proc i <;> simp [List.getElem?_set_ne hne]

/-- Folding the loop over indices not containing `j` leaves cell `j`
unchanged. -/
theorem foldl_loopStep_getElem?_not_mem (df : List Row)
    (proc : Nat → Except String PaperResult) (is : List Nat) (s : LoopState)
    (j : Nat) (hj : j ∉ is) :
    (is.foldl (loopStep df proc) s).abstracts[j]? = s.abstracts[j]? ∧
    (is.foldl (loopStep df proc) s).keywords[j]? = s.keywords[j]? := by
  induction is generalizing s with
  | nil => exact ⟨rfl, rfl⟩
  | cons i tl ih =>
    have hij : i ≠ j := fun h => hj (h ▸ List.mem_cons_self i tl)
    have htl : j ∉ tl := fun h => hj (List.mem_cons_of_mem i h)
    rw [List.foldl_cons]
    refine ⟨?_, ?_⟩
    · rw [(ih (loopStep df proc s i) htl).1, (loopStep_getElem?_ne df proc s i j hij).1]
    · rw [(ih (loopStep df proc s i) htl).2, (loopStep_getElem?_ne df proc s i j hij).2]

/-- A successful iteration writes the result's fields into its own cell. -/
theorem loopStep_getElem?_ok (df : List Row)
    (proc : Nat → Except String PaperResult) (s : LoopState) (i : Nat)
    (r : PaperResult) (hok : proc i = .ok r)
    (hi : i < s.abstracts.length) (hi2 : i < s.keywords.length) :
    (loopStep df proc s i).abstracts[i]? = some (some r.Abstract) ∧
    (loopStep df proc s i).keywords[i]? = some (some r.Keywords) := by
  unfold loopStep
  rw [hok]
  exact ⟨List.getElem?_set_eq_of_lt _ hi, List.getElem?_set_eq_of_lt _ hi2⟩

/-- A raising iteration changes nothing but the visited list: the two
`df.at` write-backs and the checkpoint save inside the `try` are skipped. -/
theorem loopStep_error (df : List Row) (proc : Nat → Except String PaperResult)
    (s : LoopState) (i : Nat) (e : String) (h : proc i = .error e) :
    (loopStep df proc s i).abstracts = s.abstracts ∧
    (loopStep df proc s i).keywords = s.keywords ∧
    (loopStep df proc s i).writes = s.writes := by
  unfold loopStep
  rw [h]
  exact ⟨rfl, rfl, rfl⟩

/-- Splitting the iterated range at a member index `j`. -/
theorem range'_split_at (start j n : Nat) (h1 : start ≤ j) (h2 : j < n) :
    List.range' start (n - start)
      = List.range' start (j - start) ++ j :: List.range' (j + 1) (n - (j + 1)) := by
  have happ := List.range'_append start (j - start) (n - (j + 1) + 1) 1
  rw [show start + 1 * (j - start) = j by omega] at happ
  rw [show n - (j + 1) + 1 + (j - start) = n - start by omega] at happ
  rw [← happ, List.range'_succ]

/-- The final value of cell `j` for an in-range `j`: the processed
result's field on success, the pre-loop value when record `j` raised. -/
theorem run_loop_getElem? (df : List Row)
    (proc : Nat → Except String PaperResult) (start j : Nat)
    (abs0 kw0 : List (Option String))
    (ha : abs0.length = df.length) (hk : kw0.length = df.length)
    (h1 : start ≤ j) (h2 : j < df.length) :
    (∀ r, proc j = .ok r →
      (run_loop df proc start abs0 kw0).abstracts[j]? = some (some r.Abstract) ∧
      (run_loop df proc start abs0 kw0).keywords[j]? = some (some r.Keywords)) ∧
    (∀ e, proc j = .error e →
      (run_loop df proc start abs0 kw0).abstracts[j]? = abs0[j]? ∧
      (run_loop df proc start abs0 kw0).keywords[j]? = kw0[j]?) := by
  have hnm1 : j ∉ List.range' start (j - start) := by
    intro hmem
    have := List.mem_range'_1.mp hmem
    omega
  have hnm2 : j ∉ List.range' (j + 1) (df.length - (j + 1)) := by
    intro hmem
    have := List.mem_range'_1.mp hmem
    omega
  rw [run_loop, range'_split_at start j df.length h1 h2, List.foldl_append]
  have hlen := foldl_loopStep_lengths df proc (List.range' start (j - start))
    ⟨abs0, kw0, [], []⟩
  constructor
  · intro r hr
    have hstep := loopStep_getElem?_ok df proc
      ((List.range' start (j - start)).foldl (loopStep df proc) ⟨abs0, kw0, [], []⟩)
      j r hr (by rw [hlen.1]; exact ha ▸ h2) (by rw [hlen.2]; exact hk ▸ h2)
    rw [List.foldl_cons]
    have hrest := foldl_loopStep_getElem?_not_mem df proc
      (List.range' (j + 1) (df.length - (j + 1)))
      (loopStep df proc
        ((List.range' start (j - start)).foldl (loopStep df proc)
          ⟨abs0, kw0, [], []⟩) j)
      j hnm2
    exact ⟨hrest.1.trans hstep.1, hrest.2.trans hstep.2⟩
  · intro e he
    have hpre := foldl_loopStep_getElem?_not_mem df proc
      (List.range' start (j - start)) ⟨abs0, kw0, [], []⟩ j hnm1
    have hstep := loopStep_error df proc
      ((List.range' start (j - start)).foldl (loopStep df proc) ⟨abs0, kw0, [], []⟩)
      j e he
    rw [List.foldl_cons]
    have hrest := foldl_loopStep_getElem?_not_mem df proc
      (List.range' (j + 1) (df.length - (j + 1)))
      (loopStep df proc
        ((List.range' start (j - start)).foldl (loopStep df proc)
          ⟨abs0, kw0, [], []⟩) j)
      j hnm2
    constructor
    · rw [hrest.1, hstep.1, hpre.1]
    · rw [hrest.2, hstep.2.1, hpre.2]

/-- With unique links in the checkpoint (its stated invariant), the merge
lookup finds exactly the matching checkpoint row. -/
theorem ckptLookup_eq_of_mem (ck : List CkptRow)
    (huniq : ck.Pairwise (fun e1 e2 => e1.Link ≠ e2.Link))
    (e : CkptRow) (he : e ∈ ck) : ckptLookup ck e.Link = some e := by
  induction ck with
  | nil => cases he
  | cons hd tl ih =>
    rcases List.mem_cons.mp he with rfl | htl
    · unfold ckptLookup
      exact List.find?_cons_of_pos tl (by simp)
    · have hne : hd.Link ≠ e.Link := (List.pairwise_cons.mp huniq).1 e htl
      unfold ckptLookup at ih ⊢
      rw [List.find?_cons_of_neg tl (by simp [hne])]
      exact ih (List.pairwise_cons.mp huniq).2 htl

/-- A record matching no checkpoint link gets NaN from the merge. -/
theorem ckptLookup_eq_none (ck : List CkptRow) (link : String)
    (h : ∀ e ∈ ck, e.Link ≠ link) : ckptLookup ck link = none := by
  unfold ckptLookup
  exact List.find?_eq_none.mpr (fun e he => by simp [h e he])

/-- C1: with a checkpoint present (unique links; cells read back from CSV,
so never the non-NaN empty string), the merge copies `Abstract`/`Keywords`
from the matching checkpoint row and leaves NaN where unmatched; the
resume index equals the count of records whose merged abstract is
non-empty; and the iteration loop visits exactly positions
`[start_index, df.length)`. -/
theorem C1_resume_semantics (ck : List CkptRow) (df : List Row)
    (proc : Nat → Except String PaperResult)
    (huniq : ck.Pairwise (fun e1 e2 => e1.Link ≠ e2.Link))
    (hcsv : ∀ e ∈ ck, e.Abstract ≠ some "") :
    (∀ r : Row, ∀ e ∈ ck, e.Link = r.Link →
      mergedAbstract ck r = e.Abstract ∧ mergedKeywords ck r = e.Keywords) ∧
    (∀ r : Row, (∀ e ∈ ck, e.Link ≠ r.Link) →
      mergedAbstract ck r = none ∧ mergedKeywords ck r = none) ∧
    start_index ck df
      = df.countP (fun r => ((mergedAbstract ck r).getD "") != "") ∧
    (run_loop df proc (start_index ck df)
        (resumeAbstracts (some ck) df) (resumeKeywords (some ck) df)).visited
      = List.range' (start_index ck df) (df.length - start_index ck df) := by
  refine ⟨?_, ?_, ?_, ?_⟩
  · intro r e he hl
    have := ckptLookup_eq_of_mem ck huniq e he
    rw [hl] at this
    unfold mergedAbstract mergedKeywords
    rw [this]
    exact ⟨rfl, rfl⟩
  · intro r hnone
    unfold mergedAbstract mergedKeywords
    rw [ckptLookup_eq_none ck r.Link hnone]
    exact ⟨rfl, rfl⟩
  · have hmA : ∀ r : Row, mergedAbstract ck r ≠ some "" := by
      intro r hcontra
      unfold mergedAbstract at hcontra
      rcases hfind : ckptLookup ck r.Link with _ | e
      · rw [hfind] at hcontra
        simp at hcontra
      · rw [hfind] at hcontra
        simp only [Option.some_bind] at hcontra
        exact hcsv e (List.mem_of_find?_eq_some hfind) hcontra
    unfold start_index
    rw [List.countP_map]
    apply List.countP_congr
    intro r _
    rcases ho : mergedAbstract ck r with _ | s
    · simp [Function.comp, ho]
    · have hs : s ≠ "" := fun h => hmA r (by rw [ho, h])
      simp [Function.comp, ho, hs]
  · rw [run_loop, foldl_loopStep_visited]
    rfl

set_option maxRecDepth 40000 in
/-- Closed instance of `C1_resume_semantics`: for the 200-record frame
with a contiguous 50-record checkpoint, the resume index is 50 and the
loop visits exactly positions 50-199. -/
theorem C1_resume_semantics_witness :
    start_index ck50 df200 = 50 ∧
    (run_loop df200 procConst (start_index ck50 df200)
        (resumeAbstracts (some ck50) df200)
        (resumeKeywords (some ck50) df200)).visited = List.range' 50 150 := by
  have h := C1_resume_semantics ck50 df200 procConst (by decide) (by decide)
  have hs : start_index ck50 df200 = 50 := by decide
  refine ⟨hs, ?_⟩
  rw [h.2.2.2, hs]
  have hlen : df200.length = 200 := by decide
  rw [hlen]

/-- C5: when processing record `j` raises, the exception is caught at the
loop boundary: the loop still visits every position of the range, and —
starting from the no-checkpoint initialization where every cell is `''` —
record `j`'s abstract and keyword cells are still `''` in the final
output. -/
theorem C5_exception_caught_loop_continues (df : List Row)
    (proc : Nat → Except String PaperResult) (start j : Nat) (e : String)
    (h1 : start ≤ j) (h2 : j < df.length) (herr : proc j = .error e) :
    (run_loop df proc start (resumeAbstracts none df)
        (resumeKeywords none df)).visited
      = List.range' start (df.length - start) ∧
    (run_loop df proc start (resumeAbstracts none df)
        (resumeKeywords none df)).abstracts[j]? = some (some "") ∧
    (run_loop df proc start (resumeAbstracts none df)
        (resumeKeywords none df)).keywords[j]? = some (some "") := by
  have ha : (resumeAbstracts none df).length = df.length := by
    unfold resumeAbstracts
    exact List.length_map df _
  have hk : (resumeKeywords none df).length = df.length := by
    unfold resumeKeywords
    exact List.length_map df _
  have h := (run_loop_getElem? df proc start j _ _ ha hk h1 h2).2 e herr
  have hj : (resumeAbstracts none df)[j]? = some (some "") := by
    unfold resumeAbstracts
    rw [List.getElem?_map, List.getElem?_eq_getElem h2]
    rfl
  have hj2 : (resumeKeywords none df)[j]? = some (some "") := by
    unfold resumeKeywords
    rw [List.getElem?_map, List.getElem?_eq_getElem h2]
    rfl
  refine ⟨?_, ?_, ?_⟩
  · rw [run_loop, foldl_loopStep_visited]
    rfl
  · rw [h.1, hj]
  · rw [h.2, hj2]

/-- Closed instance of `C5_exception_caught_loop_continues`: in a 4-record
run where record 1 raises, the loop visits all four records and record 1
keeps empty fields. -/
theorem C5_exception_caught_loop_continues_witness :
    (run_loop df4 (fun i => if i = 1 then .error "boom" else procConst i) 0
        (resumeAbstracts none df4) (resumeKeywords none df4)).visited
      = List.range' 0 4 ∧
    (run_loop df4 (fun i => if i = 1 then .error "boom" else procConst i) 0
        (resumeAbstracts none df4) (resumeKeywords none df4)).abstracts[1]?
      = some (some "") ∧
    (run_loop df4 (fun i => if i = 1 then .error "boom" else procConst i) 0
        (resumeAbstracts none df4) (resumeKeywords none df4)).keywords[1]?
      = some (some "") := by
  have h := C5_exception_caught_loop_continues df4
    (fun i => if i = 1 then .error "boom" else procConst i) 0 1 "boom"
    (by decide) (by decide) rfl
  have hlen : df4.length = 4 := rfl
  exact ⟨by rw [h.1, hlen], h.2.1, h.2.2⟩

/-- A snapshot taken while both columns still have one cell per record
covers every record of the frame from index 0, in order. -/
theorem snapshot_map_link : ∀ (df : List Row) (a k : List (Option String)),
    df.length ≤ a.length → df.length ≤ k.length →
    (snapshot df a k).map (fun entry => entry.Link) = df.map Row.Link := by
  intro df
  induction df with
  | nil =>
    intro a k _ _
    cases a <;> cases k <;> rfl
  | cons hd tl ih =>
    intro a k ha hk
    cases a with
    | nil => simp at ha
    | cons a0 restA =>
      cases k with
      | nil => simp at hk
      | cons k0 restK =>
        simp only [snapshot, List.map_cons, List.cons.injEq, true_and]
        exact ih restA restK (by simpa using ha) (by simpa using hk)

/-- When no record raises, a checkpoint write happens after processing
exactly those indices `i` with `(i + 1) % BATCH_SIZE == 0`, recording the
absolute `i + 1`. -/
theorem foldl_loopStep_writes_fst (df : List Row)
    (proc : Nat → Except String PaperResult) (is : List Nat) (s : LoopState)
    (hok : ∀ i ∈ is, ∃ r, proc i = .ok r) :
    ((is.foldl (loopStep df proc) s).writes).map Prod.fst
      = s.writes.map Prod.fst
        ++ (is.filter (fun i => (i + 1) % BATCH_SIZE == 0)).map
            (fun i => i + 1) := by
  induction is generalizing s with
  | nil => simp
  | cons i tl ih =>
    obtain ⟨r, hr⟩ := hok i (List.mem_cons_self i tl)
    rw [List.foldl_cons, ih (loopStep df proc s i)
      (fun x hx => hok x (List.mem_cons_of_mem i hx))]
    unfold loopStep
    rw [hr]
    simp only [List.filter_cons]
    by_cases hb : ((i + 1) % BATCH_SIZE == 0) = true
    · rw [if_pos hb, if_pos hb]
      simp
    · rw [if_neg hb, if_neg hb]

/-- Every checkpoint write performed by the loop snapshots all records
from index 0 (its rows' links are exactly the frame's links, in order). -/
theorem foldl_loopStep_writes_links (df : List Row)
    (proc : Nat → Except String PaperResult) (is : List Nat) (s : LoopState)
    (ha : s.abstracts.length = df.length) (hk : s.keywords.length = df.length)
    (hw : ∀ w ∈ s.writes, (w.2.map (fun entry => entry.Link)) = df.map Row.Link) :
    ∀ w ∈ (is.foldl (loopStep df proc) s).writes,
      (w.2.map (fun entry => entry.Link)) = df.map Row.Link := by
  induction is generalizing s with
  | nil => exact hw
  | cons i tl ih =>
    rw [List.foldl_cons]
    apply ih (loopStep df proc s i)
    · rw [(loopStep_lengths df proc s i).1, ha]
    · rw [(loopStep_lengths df proc s i).2, hk]
    · intro w hwmem
      unfold loopStep at hwmem
      cases hp : proc i with
      | error e =>
        rw [hp] at hwmem
        exact hw w hwmem
      | ok r =>
        rw [hp] at hwmem
        simp only at hwmem
        by_cases hb : ((i + 1) % BATCH_SIZE == 0) = true
        · rw [if_pos hb] at hwmem
          rcases List.mem_append.mp hwmem with hmem | hmem
          · exact hw w hmem
          · rw [List.mem_singleton.mp hmem]
            apply snapshot_map_link
            · rw [List.length_set, ha]
            · rw [List.length_set, hk]
        · rw [if_neg hb] at hwmem
          exact hw w hwmem

/-- C2 (amended): when no record raises, the loop persists a full-frame
(Link, Abstract, Keywords) snapshot — overwriting any prior checkpoint —
after processing exactly the records whose absolute position `i`
satisfies `(i + 1) % BATCH_SIZE == 0`; every snapshot covers all records
from index 0.  (The schedule is by absolute position, not by records
processed in the current run.) -/
theorem C2_checkpoint_schedule (df : List Row)
    (proc : Nat → Except String PaperResult) (start : Nat)
    (abs0 kw0 : List (Option String))
    (ha : abs0.length = df.length) (hk : kw0.length = df.length)
    (hok : ∀ i, ∃ r, proc i = .ok r) :
    ((run_loop df proc start abs0 kw0).writes).map Prod.fst
      = ((List.range' start (df.length - start)).filter
          (fun i => (i + 1) % BATCH_SIZE == 0)).map (fun i => i + 1) ∧
    ∀ w ∈ (run_loop df proc start abs0 kw0).writes,
      (w.2.map (fun entry => entry.Link)) = df.map Row.Link := by
  constructor
  · rw [run_loop, foldl_loopStep_writes_fst df proc _ _ (fun i _ => hok i)]
    rfl
  · exact foldl_loopStep_writes_links df proc _ _ ha hk (fun w hw => by cases hw)

set_option maxRecDepth 20000 in
/-- Closed instance of `C2_checkpoint_schedule`: resuming `df60` from its
30-record checkpoint, the only write of the run happens at absolute
position 50 and snapshots all 60 links. -/
theorem C2_checkpoint_schedule_witness :
    ((run_loop df60 procConst 30 (resumeAbstracts (some ck30) df60)
        (resumeKeywords (some ck30) df60)).writes).map Prod.fst = [50] ∧
    ∀ w ∈ (run_loop df60 procConst 30 (resumeAbstracts (some ck30) df60)
        (resumeKeywords (some ck30) df60)).writes,
      (w.2.map (fun entry => entry.Link)) = df60.map Row.Link := by
  have h := C2_checkpoint_schedule df60 procConst 30
    (resumeAbstracts (some ck30) df60) (resumeKeywords (some ck30) df60)
    (by decide) (by decide)
    (fun i => ⟨⟨"A", "K", "Success - Scopus"⟩, rfl⟩)
  refine ⟨?_, h.2⟩
  rw [h.1]
  decide

set_option maxRecDepth 20000 in
/-- C2 counterexample: for a run resumed at index 30 (of 60), the first
checkpoint write of the run happens after only 20 records processed in
this run — the `(i + 1) % BATCH_SIZE` test uses the absolute position —
refuting "the first checkpoint write of that run occurs after 50 records
processed in that run" for resume indices not divisible by 50. -/
theorem C2_counterexample :
    start_index ck30 df60 = 30 ∧ 0 < start_index ck30 df60 ∧
    (((run_loop df60 procConst (start_index ck30 df60)
        (resumeAbstracts (some ck30) df60)
        (resumeKeywords (some ck30) df60)).writes).map
          (fun w => w.1 - start_index ck30 df60)).head? = some 20 ∧
    ¬ (((run_loop df60 procConst (start_index ck30 df60)
        (resumeAbstracts (some ck30) df60)
        (resumeKeywords (some ck30) df60)).writes).map
          (fun w => w.1 - start_index ck30 df60)).head? = some 50 := by
  exact ⟨by decide, by decide, by decide, by decide⟩

/-- C9 (amended): whenever every final `Abstract` cell is a string (as
after any run that did not start from a gapped checkpoint merge), the
reported success count is exactly the number of records with a non-empty
abstract, and the printed rate is (count / total) x 100 rounded to two
decimal places (here as an integer number of hundredths). -/
theorem C9_statistics (cells : List (Option String))
    (hstr : ∀ c ∈ cells, c.isSome = true) :
    success_count cells = cells.countP (fun c => (c.getD "") != "") ∧
    printed_rate_hundredths cells
      = round ((((success_count cells : ℚ) / (cells.length : ℚ)) * 100) * 100) := by
  constructor
  · apply List.countP_congr
    intro c hc
    rcases c with _ | s
    · exact absurd (hstr none hc) (by simp)
    · simp [truthyCell]
  · rfl

/-- Closed instance of `C9_statistics`: three records with exactly two
non-empty abstracts give success count 2 and a printed rate of 66.67%. -/
theorem C9_statistics_witness :
    success_count [some "A", some "B", some ""]
      = List.countP (fun c => (c.getD "") != "") [some "A", some "B", some ""] ∧
    printed_rate_hundredths [some "A", some "B", some ""] = 6667 := by
  have h := C9_statistics [some "A", some "B", some ""] (by decide)
  refine ⟨h.1, ?_⟩
  have hc : success_count [some "A", some "B", some ""] = 2 := by decide
  unfold printed_rate_hundredths success_rate
  rw [hc]
  simp only [List.length]
  rw [round_eq, Int.floor_eq_iff]
  norm_num

/-- C9 counterexample: resuming `df4` from the scattered checkpoint `ck4`
(match gaps leave NaN cells below the resume index) and failing both
remaining records, the reported success count (`astype(bool)` counts the
NaN cell as truthy) is 2, while only 1 record has a non-empty abstract. -/
theorem C9_counterexample :
    success_count ((run_loop df4 procFailAll (resumeStart (some ck4) df4)
        (resumeAbstracts (some ck4) df4)
        (resumeKeywords (some ck4) df4)).abstracts)
      ≠ ((run_loop df4 procFailAll (resumeStart (some ck4) df4)
          (resumeAbstracts (some ck4) df4)
          (resumeKeywords (some ck4) df4)).abstracts).countP
          (fun c => (c.getD "") != "") := by decide

/-- A member of the whitespace-collapsed list is an inserted single space
or a non-whitespace member of the input. -/
theorem mem_collapseWs : ∀ (l : List Char) (b : Bool) (c : Char),
    c ∈ collapseWs l b → c = ' ' ∨ (c ∈ l ∧ pyIsSpace c = false) := by
  intro l
  induction l with
  | nil =>
    intro b c hc
    cases hc
  | cons c0 rest ih =>
    intro b c hc
    simp only [collapseWs] at hc
    by_cases h0 : pyIsSpace c0 = true
    · rw [if_pos h0] at hc
      cases b with
      | true =>
        rcases ih true c (by simpa using hc) with h | h
        · exact Or.inl h
        · exact Or.inr ⟨List.mem_cons_of_mem c0 h.1, h.2⟩
      | false =>
        rcases List.mem_cons.mp (by simpa using hc) with rfl | hmem
        · exact Or.inl rfl
        · rcases ih true c hmem with h | h
          · exact Or.inl h
          · exact Or.inr ⟨List.mem_cons_of_mem c0 h.1, h.2⟩
    · rw [if_neg h0] at hc
      rcases List.mem_cons.mp hc with rfl | hmem
      · exact Or.inr ⟨List.mem_cons_self _ _, by simpa using h0⟩
      · rcases ih false c hmem with h | h
        · exact Or.inl h
        · exact Or.inr ⟨List.mem_cons_of_mem c0 h.1, h.2⟩

/-- When the previous character was whitespace (its single space already
emitted), the next emitted character is never whitespace. -/
theorem head?_collapseWs_true : ∀ (l : List Char) (c : Char),
    (collapseWs l true).head? = some c → pyIsSpace c = false := by
  intro l
  induction l with
  | nil =>
    intro c hc
    cases hc
  | cons c0 rest ih =>
    intro c hc
    simp only [collapseWs] at hc
    by_cases h0 : pyIsSpace c0 = true
    · rw [if_pos h0] at hc
      exact ih c (by simpa using hc)
    · rw [if_neg h0] at hc
      rw [List.head?_cons, Option.some.injEq] at hc
      rw [← hc]
      simpa using h0

/-- The collapsed list never contains two adjacent whitespace
characters. -/
theorem chain'_collapseWs : ∀ (l : List Char) (b : Bool),
    List.Chain' (fun a c => pyIsSpace a = true → pyIsSpace c = true → False)
      (collapseWs l b) := by
  intro l
  induction l with
  | nil =>
    intro b
    simp [collapseWs]
  | cons c0 rest ih =>
    intro b
    simp only [collapseWs]
    by_cases h0 : pyIsSpace c0 = true
    · rw [if_pos h0]
      cases b with
      | true => simpa using ih true
      | false =>
        rw [if_neg (by simp)]
        rw [List.chain'_cons']
        refine ⟨?_, ih true⟩
        intro y hy _ hspy
        exact absurd (head?_collapseWs_true rest y hy) (by simp [hspy])
    · rw [if_neg h0]
      rw [List.chain'_cons']
      refine ⟨?_, ih false⟩
      intro y _ hspc0 _
      exact absurd hspc0 (by simpa using h0)

/-- Collapsing is the identity on a list whose whitespace is single
plain spaces, none adjacent (and, when the previous character counts as
whitespace, whose head is not whitespace). -/
theorem collapseWs_eq_self : ∀ (l : List Char) (b : Bool),
    (∀ c ∈ l, pyIsSpace c = true → c = ' ') →
    List.Chain' (fun a c => pyIsSpace a = true → pyIsSpace c = true → False) l →
    (b = true → ∀ c, l.head? = some c → pyIsSpace c = false) →
    collapseWs l b = l := by
  intro l
  induction l with
  | nil =>
    intro b _ _ _
    rfl
  | cons c0 rest ih =>
    intro b hsp hch hhd
    simp only [collapseWs]
    by_cases h0 : pyIsSpace c0 = true
    · have hc0 : c0 = ' ' := hsp c0 (List.mem_cons_self _ _) h0
      cases b with
      | true => exact absurd (hhd rfl c0 rfl) (by simp [h0])
      | false =>
        rw [if_pos h0, if_neg (by simp)]
        have hrest : collapseWs rest true = rest := by
          apply ih true
          · intro c hc hspc
            exact hsp c (List.mem_cons_of_mem c0 hc) hspc
          · exact (List.chain'_cons'.mp hch).2
          · intro _ c hc
            cases hpc : pyIsSpace c
            · rfl
            · exact ((List.chain'_cons'.mp hch).1 c hc h0 hpc).elim
        rw [hrest, hc0]
    · rw [if_neg h0]
      rw [ih false (fun c hc hspc => hsp c (List.mem_cons_of_mem c0 hc) hspc)
        (List.chain'_cons'.mp hch).2 (fun habs => absurd habs (by simp))]

/-- Tag removal is the identity on a list containing no opening angle
bracket. -/
theorem removeTags_eq_self : ∀ (l : List Char), (∀ c ∈ l, c ≠ '<') →
    removeTags l = l := by
  intro l
  induction l with
  | nil =>
    intro _
    rfl
  | cons c0 rest ih =>
    intro h
    show stripTagsAux (c0 :: rest) none = c0 :: rest
    simp only [stripTagsAux]
    rw [if_neg (h c0 (List.mem_cons_self _ _))]
    have hrest := ih (fun c hc => h c (List.mem_cons_of_mem _ hc))
    unfold removeTags at hrest
    rw [hrest]

/-- `dropWhile` is the identity when the head does not satisfy the
predicate. -/
theorem dropWhile_pyIsSpace_eq_self (l : List Char)
    (h : ∀ c, l.head? = some c → pyIsSpace c = false) :
    l.dropWhile pyIsSpace = l := by
  cases l with
  | nil => rfl
  | cons c0 rest =>
    rw [List.dropWhile_cons, if_neg (by simp [h c0 rfl])]

/-- The head of a `dropWhile` result does not satisfy the predicate. -/
theorem head?_dropWhile_no (p : Char → Bool) : ∀ (l : List Char) (c : Char),
    (l.dropWhile p).head? = some c → p c = false := by
  intro l
  induction l with
  | nil =>
    intro c hc
    cases hc
  | cons c0 rest ih =>
    intro c hc
    rw [List.dropWhile_cons] at hc
    by_cases h0 : p c0 = true
    · rw [if_pos h0] at hc
      exact ih c hc
    · rw [if_neg h0] at hc
      rw [List.head?_cons, Option.some.injEq] at hc
      rw [← hc]
      simpa using h0

/-- Stripping both ends yields a sublist. -/
theorem stripEnds_sublist (l : List Char) : (stripEnds l).Sublist l := by
  unfold stripEnds
  have h1 : (l.dropWhile pyIsSpace).Sublist l := List.dropWhile_sublist _
  have h2 : ((l.dropWhile pyIsSpace).reverse.dropWhile pyIsSpace).Sublist
      (l.dropWhile pyIsSpace).reverse := List.dropWhile_sublist _
  have h3 := h2.reverse
  rw [List.reverse_reverse] at h3
  exact h3.trans h1

/-- The last character of a stripped list is not whitespace. -/
theorem getLast?_stripEnds (l : List Char) (c : Char)
    (h : (stripEnds l).getLast? = some c) : pyIsSpace c = false := by
  unfold stripEnds at h
  rw [List.getLast?_reverse] at h
  exact head?_dropWhile_no pyIsSpace _ c h

/-- The first character of a stripped list is not whitespace. -/
theorem head?_stripEnds (l : List Char) (c : Char)
    (h : (stripEnds l).head? = some c) : pyIsSpace c = false := by
  unfold stripEnds at h
  rw [List.head?_reverse] at h
  cases hz : l.dropWhile pyIsSpace with
  | nil =>
    rw [hz] at h
    cases h
  | cons z0 zrest =>
    have hz0 : pyIsSpace z0 = false :=
      head?_dropWhile_no pyIsSpace l z0 (by rw [hz]; rfl)
    rw [hz] at h
    have hne : ((z0 :: zrest).reverse.dropWhile pyIsSpace) ≠ [] := by
      intro hnil
      have hall := List.dropWhile_eq_nil_iff.mp hnil z0 (by simp)
      rw [hz0] at hall
      cases hall
    obtain ⟨pre, hpre⟩ := List.dropWhile_suffix (l := (z0 :: zrest).reverse) pyIsSpace
    have hlast : ((z0 :: zrest).reverse.dropWhile pyIsSpace).getLast?
        = (z0 :: zrest).reverse.getLast? := by
      conv_rhs => rw [← hpre]
      rw [List.getLast?_append]
      cases hgl : ((z0 :: zrest).reverse.dropWhile pyIsSpace).getLast? with
      | none => exact absurd (List.getLast?_eq_none_iff.mp hgl) hne
      | some x => rfl
    rw [hlast, List.getLast?_reverse, List.head?_cons] at h
    rw [Option.some.injEq] at h
    rw [← h]
    exact hz0

/-- Stripping is the identity when neither end is whitespace. -/
theorem stripEnds_eq_self (l : List Char)
    (hh : ∀ c, l.head? = some c → pyIsSpace c = false)
    (hl : ∀ c, l.getLast? = some c → pyIsSpace c = false) :
    stripEnds l = l := by
  unfold stripEnds
  rw [dropWhile_pyIsSpace_eq_self l hh]
  rw [dropWhile_pyIsSpace_eq_self l.reverse
    (fun c hc => hl c (by rwa [List.head?_reverse] at hc))]
  exact List.reverse_reverse l

/-- The no-adjacent-whitespace property is preserved by reversal
(the relation is symmetric). -/
theorem chain'_no_adjacent_reverse {l : List Char}
    (h : List.Chain' (fun a c => pyIsSpace a = true → pyIsSpace c = true → False) l) :
    List.Chain' (fun a c => pyIsSpace a = true → pyIsSpace c = true → False)
      l.reverse := by
  rw [List.chain'_reverse]
  exact h.imp (fun a b hr hb ha => hr ha hb)

/-- The no-adjacent-whitespace property is preserved by stripping. -/
theorem chain'_stripEnds (l : List Char)
    (h : List.Chain' (fun a c => pyIsSpace a = true → pyIsSpace c = true → False) l) :
    List.Chain' (fun a c => pyIsSpace a = true → pyIsSpace c = true → False)
      (stripEnds l) := by
  unfold stripEnds
  apply chain'_no_adjacent_reverse
  apply List.Chain'.suffix _ (List.dropWhile_suffix _)
  apply chain'_no_adjacent_reverse
  exact List.Chain'.suffix h (List.dropWhile_suffix _)

/-- Every character of a normalized string is in the allow-set. -/
theorem clean_text_mem_allowed (s : String) (c : Char)
    (hc : c ∈ (clean_text s).data) : isAllowedChar c = true := by
  unfold clean_text at hc
  by_cases hs : s = ""
  · rw [if_pos hs] at hc
    cases hc
  · rw [if_neg hs] at hc
    have hc' : c ∈ List.filter isAllowedChar
        (collapseWs (removeTags s.data) false) :=
      List.Sublist.mem hc (stripEnds_sublist _)
    exact List.of_mem_filter hc'

/-- The only whitespace character a normalized string can contain is the
plain space. -/
theorem clean_text_spaces_blank (s : String) (c : Char)
    (hc : c ∈ (clean_text s).data) (hsp : pyIsSpace c = true) : c = ' ' := by
  unfold clean_text at hc
  by_cases hs : s = ""
  · rw [if_pos hs] at hc
    cases hc
  · rw [if_neg hs] at hc
    have hc' : c ∈ List.filter isAllowedChar
        (collapseWs (removeTags s.data) false) :=
      List.Sublist.mem hc (stripEnds_sublist _)
    have hc'' : c ∈ collapseWs (removeTags s.data) false :=
      (List.mem_filter.mp hc').1
    rcases mem_collapseWs _ false c hc'' with h | h
    · exact h
    · rw [h.2] at hsp
      cases hsp

/-- On a non-empty input all of whose characters are allowed, a second
normalization reduces to collapsing whitespace and re-stripping: the tag
pass and the allow-set pass are the identity. -/
theorem clean_text_of_allowed (t : String) (ht : t ≠ "")
    (hall : ∀ c ∈ t.data, isAllowedChar c = true) :
    clean_text t = String.mk (stripEnds (collapseWs t.data false)) := by
  unfold clean_text
  rw [if_neg ht]
  rw [removeTags_eq_self t.data (fun c hc heq => by
    have h1 := hall c hc
    rw [heq] at h1
    exact absurd h1 (by decide))]
  rw [List.filter_eq_self.mpr (fun c hc => by
    rcases mem_collapseWs _ false c hc with rfl | h
    · decide
    · exact hall c h.1)]

/-- Normalization fixes any string that is already in normal form: all
characters allowed, whitespace only as single non-adjacent plain spaces,
and no whitespace at either end. -/
theorem clean_text_eq_self (u : String)
    (hall : ∀ c ∈ u.data, isAllowedChar c = true)
    (hblank : ∀ c ∈ u.data, pyIsSpace c = true → c = ' ')
    (hch : List.Chain' (fun a c => pyIsSpace a = true → pyIsSpace c = true → False)
      u.data)
    (hh : ∀ c, u.data.head? = some c → pyIsSpace c = false)
    (hl : ∀ c, u.data.getLast? = some c → pyIsSpace c = false) :
    clean_text u = u := by
  by_cases hu : u = ""
  · rw [hu]
    rfl
  · unfold clean_text
    rw [if_neg hu]
    rw [removeTags_eq_self u.data (fun c hc heq => by
      have h1 := hall c hc
      rw [heq] at h1
      exact absurd h1 (by decide))]
    rw [collapseWs_eq_self u.data false hblank hch
      (fun habs => absurd habs (by simp))]
    rw [List.filter_eq_self.mpr hall]
    rw [stripEnds_eq_self u.data hh hl]

/-- C10 (amended): `clean_text` is not idempotent in one step — removing
a disallowed character can merge two single spaces into a doubled space,
because the whitespace pass runs before the allow-set pass — but a second
application is a fixpoint: for every string `s`,
`clean_text (clean_text (clean_text s)) = clean_text (clean_text s)`. -/
theorem C10_normalize_twice_fixpoint (s : String) :
    clean_text (clean_text (clean_text s)) = clean_text (clean_text s) := by
  by_cases h1 : clean_text s = ""
  · rw [h1]
    rfl
  · rw [clean_text_of_allowed (clean_text s) h1 (clean_text_mem_allowed s)]
    apply clean_text_eq_self
    · intro c hc
      have hc1 : c ∈ collapseWs (clean_text s).data false :=
        List.Sublist.mem hc (stripEnds_sublist _)
      rcases mem_collapseWs _ false c hc1 with rfl | h
      · decide
      · exact clean_text_mem_allowed s c h.1
    · intro c hc hsp
      have hc1 : c ∈ collapseWs (clean_text s).data false :=
        List.Sublist.mem hc (stripEnds_sublist _)
      rcases mem_collapseWs _ false c hc1 with rfl | h
      · rfl
      · rw [h.2] at hsp
        cases hsp
    · exact chain'_stripEnds _ (chain'_collapseWs (clean_text s).data false)
    · exact fun c hc => head?_stripEnds _ c hc
    · exact fun c hc => getLast?_stripEnds _ c hc
